import Mathlib

/-!
# Verification of the `bioval` top-K distance pipeline

Shallow embedding of `src/metrics/top_k_distance.py` (class `TopKDistance`).

Conventions of the embedding:
* a 2-D float tensor is a `List (List ℝ)` (list of rows); float arithmetic is
  modelled by exact real arithmetic;
* `torch.sort(matrix, dim=0, descending=True)` is modelled by a stable
  insertion sort of each column, paired with the original row indices
  (the spec documents the stable tie-break convention in §4.3);
* the scorer works on integer ranks and integer `k` percentages, so its
  arithmetic is exact rational arithmetic (`ℚ`);
* `ValueError`s raised by `__call__` become an `Except TKError` result.

The rank extractor and the scorer are generic in the entry type so that
they can be evaluated on `ℚ` matrices by `decide`; `__call__` instantiates
them at `ℝ`.
-/

namespace Bioval

/-- The decidability instance used by the column sort below
(compare the values stored in `(row index, value)` pairs). -/
instance instDecRelDesc {α : Type} [LinearOrder α] :
    DecidableRel fun (p q : ℕ × α) => q.2 ≤ p.2 :=
  fun p q => inferInstanceAs (Decidable (q.2 ≤ p.2))

/-- The decidability instance for the ascending variant. -/
instance instDecRelAsc {α : Type} [LinearOrder α] :
    DecidableRel fun (p q : ℕ × α) => p.2 ≤ q.2 :=
  fun p q => inferInstanceAs (Decidable (p.2 ≤ q.2))

/-- Column `i` of a matrix (given as a list of rows), paired with row
indices: the model of `matrix[:, i]` together with the implicit row
numbering used by `torch.sort(..., dim=0)`. Out-of-range entries default
(never reached on well-formed square matrices). -/
def colPairs {α : Type} [Inhabited α] (matrix : List (List α)) (i : ℕ) :
    List (ℕ × α) :=
  (matrix.map fun row => row.getD i default).enum

/-- `torch.sort(matrix, dim=0, descending=True)` on one column: stable sort
of the `(row index, value)` pairs by value, largest value first. -/
def sortDesc {α : Type} [LinearOrder α] (l : List (ℕ × α)) : List (ℕ × α) :=
  l.insertionSort fun p q => q.2 ≤ p.2

/-- `TopKDistance._compute_diag_ranks` (src lines 131-158): sort each column
in *descending* order, then `ranks[i] = (indices[:, i] == i).nonzero()[0] + 1`,
i.e. one plus the position of row `i` in the descending-sorted column `i`. -/
def compute_diag_ranks {α : Type} [LinearOrder α] [Inhabited α]
    (matrix : List (List α)) : List ℕ :=
  (List.range matrix.length).map fun i =>
    (sortDesc (colPairs matrix i)).findIdx (fun p => p.1 == i) + 1

/-- Modelled from the spec: the rank extractor as described in spec §4.3 —
sort each column of the distance matrix *ascending* (smallest/best first)
and return one plus the position at which the row index equals `i`. This is
the comparison point for claim C1; the source's `_compute_diag_ranks` is
`compute_diag_ranks` above. -/
def specDiagRanks {α : Type} [LinearOrder α] [Inhabited α]
    (matrix : List (List α)) : List ℕ :=
  (List.range matrix.length).map fun i =>
    ((colPairs matrix i).insertionSort fun p q => p.2 ≤ q.2).findIdx
      (fun p => p.1 == i) + 1

/-- The matrix used as the example in the source's docstrings (lines 88 and
144) and in spec §8 ("Concrete scenario"), read as a `ℚ` matrix. -/
def mat3 : List (List ℚ) :=
  [[mkRat 7 10, mkRat 2 10, mkRat 1 10],
   [mkRat 3 10, mkRat 5 10, mkRat 2 10],
   [mkRat 1 10, mkRat 3 10, mkRat 6 10]]

/-- The `top{k}` score computed by `__call__` (src lines 120-124):
`number_values = matrix.shape[0] * (k/100)`; `r = (ranks <= number_values).sum()`;
`r = (r / matrix.shape[0]) * 100`. -/
def top_k_score (n : ℕ) (ranks : List ℕ) (k : ℕ) : ℚ :=
  ((ranks.countP fun (rk : ℕ) =>
      decide ((rk : ℚ) ≤ (n : ℚ) * ((k : ℚ) / 100))) : ℚ) / (n : ℚ) * 100

/-- The `mean_ranks` entry (src lines 117 and 126):
`torch.mean(ranks.float())` then `(mean_ranks / matrix.shape[0]) * 100`. -/
def mean_ranks_score (n : ℕ) (ranks : List ℕ) : ℚ :=
  ((ranks.map fun rk => (rk : ℚ)).sum / (ranks.length : ℚ)) / (n : ℚ) * 100

/-- The `exact_matching` entry (src lines 128-129):
`r_exact = (ranks == 0).sum()` then `(r_exact / matrix.shape[0]) * 100`.
Note that the comparison in the source is against `0`, not `1`. -/
def exact_matching_score (n : ℕ) (ranks : List ℕ) : ℚ :=
  ((ranks.countP fun rk => rk == 0) : ℚ) / (n : ℚ) * 100

/-- `(rk : ℚ) ≤ c ↔ rk ≤ m` whenever `m ≤ c < m + 1`: how a fractional
threshold compares against integer ranks. -/
theorem natCast_le_iff_of_between (rk m : ℕ) (c : ℚ) (h1 : (m : ℚ) ≤ c)
    (h2 : c < (m : ℚ) + 1) : ((rk : ℚ) ≤ c ↔ rk ≤ m) := by
  constructor
  · intro h
    have hlt : (rk : ℚ) < (m : ℚ) + 1 := lt_of_le_of_lt h h2
    have : (rk : ℚ) < ((m + 1 : ℕ) : ℚ) := by push_cast; linarith
    have := Nat.cast_lt.mp this
    omega
  · intro h
    have : (rk : ℚ) ≤ (m : ℚ) := by exact_mod_cast h
    linarith

/-- When the fractional threshold `N·(K/100)` lies in `[m, m+1)`, the
`top{K}` score counts exactly the ranks `≤ m`. -/
theorem top_k_score_eq_count (n : ℕ) (ranks : List ℕ) (k m : ℕ)
    (h1 : (m : ℚ) ≤ (n : ℚ) * ((k : ℚ) / 100))
    (h2 : (n : ℚ) * ((k : ℚ) / 100) < (m : ℚ) + 1) :
    top_k_score n ranks k =
      ((ranks.countP fun (rk : ℕ) => decide (rk ≤ m)) : ℚ) / (n : ℚ) * 100 := by
  unfold top_k_score
  congr 2
  refine congrArg _ (List.countP_congr ?_)
  intro rk _
  simp only [decide_eq_true_eq]
  exact natCast_le_iff_of_between rk m _ h1 h2

/-- C4: the `top{K}` score is `count(rank ≤ N·(K/100)) / N × 100`, and the
fractional threshold is compared directly against the integer ranks without
rounding: with `N = 5`, thresholds `2.5` (`K = 50`) and `2.9` (`K = 58`)
admit exactly the ranks `≤ 2`, while threshold `3.0` (`K = 60`) also admits
rank `3`. -/
theorem top_k_score_unrounded_threshold (ranks : List ℕ) :
    (∀ n k : ℕ, top_k_score n ranks k =
      ((ranks.countP fun (rk : ℕ) =>
        decide ((rk : ℚ) ≤ (n : ℚ) * ((k : ℚ) / 100))) : ℚ) / (n : ℚ) * 100) ∧
    top_k_score 5 ranks 50 = top_k_score 5 ranks 58 ∧
    top_k_score 5 ranks 50 =
      ((ranks.countP fun (rk : ℕ) => decide (rk ≤ 2)) : ℚ) / 5 * 100 ∧
    top_k_score 5 ranks 60 =
      ((ranks.countP fun (rk : ℕ) => decide (rk ≤ 3)) : ℚ) / 5 * 100 := by
  refine ⟨fun n k => rfl, ?_, ?_, ?_⟩
  · rw [top_k_score_eq_count 5 ranks 50 2 (by norm_num) (by norm_num),
        top_k_score_eq_count 5 ranks 58 2 (by norm_num) (by norm_num)]
  · rw [top_k_score_eq_count 5 ranks 50 2 (by norm_num) (by norm_num)]
    norm_num
  · rw [top_k_score_eq_count 5 ranks 60 3 (by norm_num) (by norm_num)]
    norm_num

/-- C7: for a fixed rank vector, the `top{K}` score is monotone in the
requested percentage `K`. -/
theorem top_k_score_mono_in_k (n : ℕ) (ranks : List ℕ) (k1 k2 : ℕ)
    (h : k1 ≤ k2) : top_k_score n ranks k1 ≤ top_k_score n ranks k2 := by
  unfold top_k_score
  have hcount : (ranks.countP fun (rk : ℕ) =>
      decide ((rk : ℚ) ≤ (n : ℚ) * ((k1 : ℚ) / 100))) ≤
      (ranks.countP fun (rk : ℕ) =>
      decide ((rk : ℚ) ≤ (n : ℚ) * ((k2 : ℚ) / 100))) := by
    refine List.countP_mono_left ?_
    intro rk _ hk
    simp only [decide_eq_true_eq] at hk ⊢
    have hkk : (n : ℚ) * ((k1 : ℚ) / 100) ≤ (n : ℚ) * ((k2 : ℚ) / 100) := by
      have h1 : ((k1 : ℚ)) ≤ (k2 : ℚ) := by exact_mod_cast h
      have hn : (0 : ℚ) ≤ (n : ℚ) := by positivity
      nlinarith
    linarith
  have hcast : ((ranks.countP fun (rk : ℕ) =>
      decide ((rk : ℚ) ≤ (n : ℚ) * ((k1 : ℚ) / 100))) : ℚ) ≤
      ((ranks.countP fun (rk : ℕ) =>
      decide ((rk : ℚ) ≤ (n : ℚ) * ((k2 : ℚ) / 100))) : ℚ) := by
    exact_mod_cast hcount
  by_cases hn : (n : ℚ) = 0
  · rw [hn, div_zero, div_zero]
  · have hnpos : (0 : ℚ) < (n : ℚ) :=
      lt_of_le_of_ne (by positivity) (Ne.symm hn)
    gcongr

/-- Witness for C7 at a concrete input. -/
theorem top_k_score_mono_in_k_witness :
    1 ≤ 10 ∧ top_k_score 3 [1, 2, 3] 1 ≤ top_k_score 3 [1, 2, 3] 10 :=
  ⟨by norm_num, top_k_score_mono_in_k 3 [1, 2, 3] 1 10 (by norm_num)⟩

/-- C1 (evaluation at the failing input): on the docstring matrix
`[[0.7,0.2,0.1],[0.3,0.5,0.2],[0.1,0.3,0.6]]`, the source's
`_compute_diag_ranks` (which sorts each column *descending*) gives every
diagonal entry rank `1` — because each diagonal entry is the *largest*
value of its column — whereas the rank extractor described by the claim
(ascending sort, smallest first) gives every diagonal entry rank `3`.
In particular the item with the smallest distance in its column does not
receive rank 1 under the code. -/
theorem compute_diag_ranks_sorts_descending :
    compute_diag_ranks mat3 = [1, 1, 1] ∧ specDiagRanks mat3 = [3, 3, 3] := by
  decide

/-- C6: every entry of the rank vector lies between `1` and `N`
(this holds for the descending sort actually performed by the code:
the rank is one plus a position inside a length-`N` permutation of the
column, so it is always in `[1, N]`). -/
theorem compute_diag_ranks_bounds {α : Type} [LinearOrder α] [Inhabited α]
    (matrix : List (List α)) :
    ∀ r ∈ compute_diag_ranks matrix, 1 ≤ r ∧ r ≤ matrix.length := by
  intro r hr
  unfold compute_diag_ranks at hr
  rw [List.mem_map] at hr
  obtain ⟨i, hi, rfl⟩ := hr
  rw [List.mem_range] at hi
  refine ⟨Nat.le_add_left 1 _, ?_⟩
  have hlen : (sortDesc (colPairs matrix i)).length = matrix.length := by
    unfold sortDesc colPairs
    rw [(List.perm_insertionSort _ _).length_eq]
    simp
  have hex : ∃ p ∈ colPairs matrix i, (p.1 == i) = true := by
    have hil : i < (colPairs matrix i).length := by
      simp [colPairs, hi]
    refine ⟨(colPairs matrix i).get ⟨i, hil⟩, List.get_mem _ _ hil, ?_⟩
    simp [colPairs]
  have hex2 : ∃ p ∈ sortDesc (colPairs matrix i), (p.1 == i) = true := by
    obtain ⟨p, hp, hpp⟩ := hex
    refine ⟨p, ?_, hpp⟩
    exact ((List.perm_insertionSort _ _).mem_iff).mpr hp
  have hlt := List.findIdx_lt_length_of_exists hex2
  rw [hlen] at hlt
  omega

/-- Witness for C6 at a concrete input. -/
theorem compute_diag_ranks_bounds_witness :
    1 ∈ compute_diag_ranks [[(1 : ℚ)]] ∧
      (1 ≤ 1 ∧ 1 ≤ ([[(1 : ℚ)]] : List (List ℚ)).length) :=
  ⟨by decide, compute_diag_ranks_bounds [[(1 : ℚ)]] 1 (by decide)⟩

/-- A `torch.Tensor` of floats, as far as the pipeline observes it: the
code only ever branches on `ndim` (accepting 2 and 3) and reads the data of
rank-2/rank-3 tensors, so tensors of rank 1 to 4 model the possible inputs
(rank 1 and 4 stand for "any rank other than 2 or 3"). -/
inductive TTensor where
  | mk1 (data : List ℝ)
  | mk2 (data : List (List ℝ))
  | mk3 (data : List (List (List ℝ)))
  | mk4 (data : List (List (List (List ℝ))))

/-- `tensor.ndim`. -/
def TTensor.ndim : TTensor → ℕ
  | TTensor.mk1 _ => 1
  | TTensor.mk2 _ => 2
  | TTensor.mk3 _ => 3
  | TTensor.mk4 _ => 4

/-- The `ValueError`s raised by `__call__` (src lines 94-104), as structured
values carrying exactly the data interpolated into the python messages:
the invalid name together with the list of valid choices, or the offending
argument name together with its `ndim`. -/
inductive TKError where
  | badMethod (given : String) (valid : List String)
  | badAggregate (given : String) (valid : List String)
  | badNdim (argName : String) (got : ℕ)
deriving DecidableEq

/-- `torch.norm(v, p=2)`: the L2 norm. -/
noncomputable def l2norm (v : List ℝ) : ℝ :=
  Real.sqrt ((v.map fun a => a ^ 2).sum)

/-- `TopKDistance._euclidean` (src lines 162-164): pairwise L2 distances. -/
noncomputable def euclidean (arr1 arr2 : List (List ℝ)) : List (List ℝ) :=
  arr1.map fun x => arr2.map fun y =>
    l2norm (List.zipWith (fun u w => u - w) x y)

/-- `TopKDistance._cosine` (src lines 166-168): one minus
`F.cosine_similarity`, whose denominator clamps each norm to `eps = 1e-8`. -/
noncomputable def cosine (arr1 arr2 : List (List ℝ)) : List (List ℝ) :=
  arr1.map fun x => arr2.map fun y =>
    1 - (List.zipWith (fun u w => u * w) x y).sum /
      (max (l2norm x) 1e-8 * max (l2norm y) 1e-8)

/-- Mean-centering of a vector, as in `_correlation`. -/
noncomputable def centered (v : List ℝ) : List ℝ :=
  v.map fun a => a - v.sum / (v.length : ℝ)

/-- `TopKDistance._correlation` (src lines 170-176): one minus the centered
dot product divided by both centered norms. The python divisions are plain
float divisions with no zero guard; real-number division is used here (see
the discussion of the zero-norm edge case in the results). -/
noncomputable def correlation (arr1 arr2 : List (List ℝ)) : List (List ℝ) :=
  arr1.map fun x => arr2.map fun y =>
    1 - (List.zipWith (fun u w => u * w) (centered x) (centered y)).sum /
      l2norm (centered x) / l2norm (centered y)

/-- `TopKDistance._chebyshev` (src lines 178-180): max absolute difference. -/
noncomputable def chebyshev (arr1 arr2 : List (List ℝ)) : List (List ℝ) :=
  arr1.map fun x => arr2.map fun y =>
    (List.zipWith (fun u w => |u - w|) x y).foldr max 0

/-- `TopKDistance._minkowski` (src lines 182-184) with its fixed `p = 3`. -/
noncomputable def minkowski (arr1 arr2 : List (List ℝ)) : List (List ℝ) :=
  arr1.map fun x => arr2.map fun y =>
    ((List.zipWith (fun u w => |u - w| ^ (3 : ℕ)) x y).sum) ^ ((1 : ℝ) / 3)

/-- `TopKDistance._cityblock` (src lines 186-188): L1 distance. -/
noncomputable def cityblock (arr1 arr2 : List (List ℝ)) : List (List ℝ) :=
  arr1.map fun x => arr2.map fun y =>
    (List.zipWith (fun u w => |u - w|) x y).sum

/-- Column `j` of one item group (`emb[i, :, j]`). -/
def colJ (item : List (List ℝ)) (j : ℕ) : List ℝ :=
  item.map fun row => row.getD j 0

/-- Feature count of one item group. -/
def featLen (item : List (List ℝ)) : ℕ := (item.headD []).length

/-- `torch.mean(emb, dim=1)` restricted to one item group. -/
noncomputable def meanRow (item : List (List ℝ)) : List ℝ :=
  (List.range (featLen item)).map fun j =>
    (colJ item j).sum / (item.length : ℝ)

/-- `TopKDistance._mean` (src lines 192-197) on a rank-3 tensor; the
rank-2 identity branch is the `ndim` dispatch in `call` below. -/
noncomputable def mean (emb : List (List (List ℝ))) : List (List ℝ) :=
  emb.map meanRow

/-- The decidability instance used to sort real columns. -/
noncomputable instance instDecRelRealLe :
    DecidableRel fun (a b : ℝ) => a ≤ b :=
  fun a b => inferInstanceAs (Decidable (a ≤ b))

/-- `torch.median(·, dim=1)` of one column: for an even number of samples
torch returns the lower of the two middle values, i.e. the element at
0-based index `(S-1)/2` of the ascending sort. -/
noncomputable def lowerMedian (l : List ℝ) : ℝ :=
  (l.insertionSort fun a b => a ≤ b).getD ((l.length - 1) / 2) 0

/-- `torch.median(emb, dim=1)[0]` restricted to one item group. -/
noncomputable def medianRow (item : List (List ℝ)) : List ℝ :=
  (List.range (featLen item)).map fun j => lowerMedian (colJ item j)

/-- `TopKDistance._median` (src lines 198-203) on a rank-3 tensor. -/
noncomputable def median (emb : List (List (List ℝ))) : List (List ℝ) :=
  emb.map medianRow

/-- `torch.exp(torch.mean(torch.log(emb + 1e-8), dim=1))` on one group. -/
noncomputable def robustMeanRow (item : List (List ℝ)) : List ℝ :=
  (List.range (featLen item)).map fun j =>
    Real.exp ((((colJ item j).map fun a => Real.log (a + 1e-8)).sum) /
      (item.length : ℝ))

/-- `TopKDistance._robust_mean` (src lines 204-211) on a rank-3 tensor. -/
noncomputable def robust_mean (emb : List (List (List ℝ))) : List (List ℝ) :=
  emb.map robustMeanRow

/-- The keys of `self._methods` (src lines 48-55), in insertion order. -/
def methodNames : List String :=
  ["euclidean", "cosine", "correlation", "chebyshev", "minkowski", "cityblock"]

/-- The keys of `self._aggregs` (src lines 56-60), in insertion order. -/
def aggregNames : List String := ["mean", "median", "robust_mean"]

/-- `self._methods` as an association list. -/
noncomputable def methodsDict :
    List (String × (List (List ℝ) → List (List ℝ) → List (List ℝ))) :=
  [("euclidean", euclidean), ("cosine", cosine), ("correlation", correlation),
   ("chebyshev", chebyshev), ("minkowski", minkowski), ("cityblock", cityblock)]

/-- `self._aggregs` as an association list. -/
noncomputable def aggregsDict :
    List (String × (List (List (List ℝ)) → List (List ℝ))) :=
  [("mean", mean), ("median", median), ("robust_mean", robust_mean)]

/-- `self._methods[self.method](arr1, arr2)`; the fallback is unreachable
because `call` validates the name first. -/
noncomputable def applyMethod (m : String) (a1 a2 : List (List ℝ)) :
    List (List ℝ) :=
  ((methodsDict.lookup m).getD fun _ _ => []) a1 a2

/-- `self._aggregs[self.aggregate](arr)`; fallback likewise unreachable. -/
noncomputable def applyAggreg (a : String) (t : List (List (List ℝ))) :
    List (List ℝ) :=
  ((aggregsDict.lookup a).getD fun _ => []) t

/-- Src lines 106-110: a rank-3 input is aggregated, a rank-2 input passes
through; other ranks never reach this point. -/
noncomputable def TTensor.to2D (agg : String) : TTensor → List (List ℝ)
  | TTensor.mk2 d => d
  | TTensor.mk3 d => applyAggreg agg d
  | _ => []

/-- The configuration held by a `TopKDistance` instance (src lines 45-47). -/
structure TopKDistance where
  method : String
  aggregate : String

/-- `TopKDistance.__call__` (src lines 63-130): validate the configured
names and the input ranks, aggregate rank-3 inputs, build the distance
matrix, extract the diagonal ranks and produce the score dictionary
(an ordered list of key/value pairs). All score values are exact
rationals because the ranks are integers. -/
noncomputable def call (self : TopKDistance) (arr1 arr2 : TTensor)
    (k_range : List ℕ) : Except TKError (List (String × ℚ)) :=
  if self.method ∉ methodNames then
    Except.error (TKError.badMethod self.method methodNames)
  else if self.aggregate ∉ aggregNames then
    Except.error (TKError.badAggregate self.aggregate aggregNames)
  else if arr1.ndim ∉ [2, 3] then
    Except.error (TKError.badNdim "arr1" arr1.ndim)
  else if arr2.ndim ∉ [2, 3] then
    Except.error (TKError.badNdim "arr2" arr2.ndim)
  else
    let matrix := applyMethod self.method
      (arr1.to2D self.aggregate) (arr2.to2D self.aggregate)
    let ranks := compute_diag_ranks matrix
    Except.ok
      ((k_range.map fun k =>
          ("top" ++ toString k, top_k_score matrix.length ranks k)) ++
        [("mean_ranks", mean_ranks_score matrix.length ranks),
         ("exact_matching", exact_matching_score matrix.length ranks)])

/-- C5: an unknown method or aggregation name, or an input of rank other
than 2 or 3, makes `__call__` raise the corresponding `ValueError` carrying
the invalid value (and, for configuration errors, the list of valid
choices). The conclusion holds for *all* array arguments and all `k_range`,
so the error does not depend on any tensor work — it is determined at call
entry — and the result is an error, never a silently defaulted score. -/
theorem call_validates_eagerly (self : TopKDistance) (arr1 arr2 : TTensor)
    (k_range : List ℕ) :
    (self.method ∉ methodNames →
      call self arr1 arr2 k_range =
        Except.error (TKError.badMethod self.method methodNames)) ∧
    (self.method ∈ methodNames → self.aggregate ∉ aggregNames →
      call self arr1 arr2 k_range =
        Except.error (TKError.badAggregate self.aggregate aggregNames)) ∧
    (self.method ∈ methodNames → self.aggregate ∈ aggregNames →
      arr1.ndim ∉ [2, 3] →
      call self arr1 arr2 k_range =
        Except.error (TKError.badNdim "arr1" arr1.ndim)) ∧
    (self.method ∈ methodNames → self.aggregate ∈ aggregNames →
      arr1.ndim ∈ [2, 3] → arr2.ndim ∉ [2, 3] →
      call self arr1 arr2 k_range =
        Except.error (TKError.badNdim "arr2" arr2.ndim)) := by
  refine ⟨?_, ?_, ?_, ?_⟩
  · intro h1
    simp [call, h1]
  · intro h1 h2
    simp [call, h1, h2]
  · intro h1 h2 h3
    simp [call, h1, h2, h3]
  · intro h1 h2 h3 h4
    simp [call, h1, h2, h3, h4]

/-- Witness for C5: each validation error at a concrete call. -/
theorem call_validates_eagerly_witness :
    ("foo" ∉ methodNames ∧
      call ⟨"foo", "mean"⟩ (TTensor.mk2 [[1]]) (TTensor.mk2 [[1]]) [1] =
        Except.error (TKError.badMethod "foo" methodNames)) ∧
    ("euclidean" ∈ methodNames ∧ "bar" ∉ aggregNames ∧
      call ⟨"euclidean", "bar"⟩ (TTensor.mk2 [[1]]) (TTensor.mk2 [[1]]) [1] =
        Except.error (TKError.badAggregate "bar" aggregNames)) ∧
    ((TTensor.mk1 [1]).ndim ∉ [2, 3] ∧
      call ⟨"euclidean", "mean"⟩ (TTensor.mk1 [1]) (TTensor.mk2 [[1]]) [1] =
        Except.error (TKError.badNdim "arr1" 1)) ∧
    ((TTensor.mk4 [[[[1]]]]).ndim ∉ [2, 3] ∧
      call ⟨"euclidean", "mean"⟩ (TTensor.mk2 [[1]]) (TTensor.mk4 [[[[1]]]]) [1] =
        Except.error (TKError.badNdim "arr2" 4)) := by
  refine ⟨⟨by decide, ?_⟩, ⟨by decide, by decide, ?_⟩, ⟨by decide, ?_⟩,
    ⟨by decide, ?_⟩⟩
  · exact (call_validates_eagerly ⟨"foo", "mean"⟩ _ _ _).1 (by decide)
  · exact (call_validates_eagerly ⟨"euclidean", "bar"⟩ _ _ _).2.1
      (by decide) (by decide)
  · exact (call_validates_eagerly ⟨"euclidean", "mean"⟩ _ _ _).2.2.1
      (by decide) (by decide) (by decide)
  · exact (call_validates_eagerly ⟨"euclidean", "mean"⟩ _ _ _).2.2.2
      (by decide) (by decide) (by decide) (by decide)

/-- Dispatch of the `euclidean` key through `self._methods`. -/
theorem applyMethod_euclidean (a1 a2 : List (List ℝ)) :
    applyMethod "euclidean" a1 a2 = euclidean a1 a2 := by
  simp [applyMethod, methodsDict]

/-- A call whose configuration and input ranks pass all four validations
reaches the scoring stage and returns the score dictionary computed from
the distance matrix. -/
theorem call_valid_eq (m a : String) (arr1 arr2 : TTensor) (k_range : List ℕ)
    (h1 : m ∈ methodNames) (h2 : a ∈ aggregNames)
    (h3 : arr1.ndim ∈ [2, 3]) (h4 : arr2.ndim ∈ [2, 3]) :
    call ⟨m, a⟩ arr1 arr2 k_range =
      Except.ok
        ((k_range.map fun k => ("top" ++ toString k,
            top_k_score (applyMethod m (arr1.to2D a) (arr2.to2D a)).length
              (compute_diag_ranks (applyMethod m (arr1.to2D a) (arr2.to2D a)))
              k)) ++
          [("mean_ranks",
            mean_ranks_score (applyMethod m (arr1.to2D a) (arr2.to2D a)).length
              (compute_diag_ranks (applyMethod m (arr1.to2D a) (arr2.to2D a)))),
           ("exact_matching",
            exact_matching_score
              (applyMethod m (arr1.to2D a) (arr2.to2D a)).length
              (compute_diag_ranks
                (applyMethod m (arr1.to2D a) (arr2.to2D a))))]) := by
  unfold call
  dsimp only
  rw [if_neg (not_not_intro h1), if_neg (not_not_intro h2),
      if_neg (not_not_intro h3), if_neg (not_not_intro h4)]

/-- C2 (evaluation at the failing input): comparing the 1×1 collection
`[[1.0]]` with itself under `euclidean` gives the distance matrix `[[0]]`
and the rank vector `[1]` (second conjunct), so the claimed formula
`(#{rank = 1} / N) × 100` would give `100`; but the code tests
`ranks == 0` (src line 128), which never holds for 1-based ranks, so the
returned `exact_matching` entry is `0`. -/
theorem exact_matching_compares_rank_to_zero :
    call ⟨"euclidean", "mean"⟩ (TTensor.mk2 [[1]]) (TTensor.mk2 [[1]]) [1] =
      Except.ok [("top1", 0), ("mean_ranks", 100), ("exact_matching", 0)] ∧
    compute_diag_ranks (applyMethod "euclidean"
      ((TTensor.mk2 [[1]]).to2D "mean")
      ((TTensor.mk2 [[1]]).to2D "mean")) = [1] := by
  have hmat : applyMethod "euclidean" ((TTensor.mk2 [[(1 : ℝ)]]).to2D "mean")
      ((TTensor.mk2 [[(1 : ℝ)]]).to2D "mean") = [[0]] := by
    rw [show (TTensor.mk2 [[(1 : ℝ)]]).to2D "mean" = [[(1 : ℝ)]] from rfl,
        applyMethod_euclidean]
    norm_num [euclidean, l2norm, Real.sqrt_eq_zero']
  have hranks : compute_diag_ranks ([[(0 : ℝ)]]) = [1] := by
    simp [compute_diag_ranks, colPairs, sortDesc, List.enum, List.enumFrom,
      List.findIdx, List.findIdx.go, show List.range 1 = [0] from rfl]
  have hs1 : top_k_score 1 [1] 1 = 0 := by
    rw [top_k_score_eq_count 1 [1] 1 0 (by norm_num) (by norm_num)]
    norm_num
  have hs2 : mean_ranks_score 1 [1] = 100 := by
    norm_num [mean_ranks_score]
  have hs3 : exact_matching_score 1 [1] = 0 := by
    norm_num [exact_matching_score]
  refine ⟨?_, by rw [hmat, hranks]⟩
  rw [call_valid_eq "euclidean" "mean" _ _ _
      (by decide) (by decide) (by decide) (by decide)]
  rw [hmat, hranks]
  simp only [List.map_cons, List.map_nil, List.length_cons, List.length_nil,
    List.nil_append, List.cons_append, hs1, hs2, hs3]
  rfl

/-- The concrete scenario input of spec §8, as a real tensor. -/
noncomputable def mat3R : List (List ℝ) :=
  [[0.7, 0.2, 0.1], [0.3, 0.5, 0.2], [0.1, 0.3, 0.6]]

/-- The euclidean distance matrix of `mat3R` against itself. -/
noncomputable def dmat3 : List (List ℝ) :=
  [[0, Real.sqrt 0.26, Real.sqrt 0.62],
   [Real.sqrt 0.26, 0, Real.sqrt 0.24],
   [Real.sqrt 0.62, Real.sqrt 0.24, 0]]

/-- C3 (evaluation at the failing input): comparing the spec §8 collection
`[[0.7,0.2,0.1],[0.3,0.5,0.2],[0.1,0.3,0.6]]` against itself under
`euclidean` with `k_range = [1, 5, 10]` returns
`{top1: 0, top5: 0, top10: 0, mean_ranks: 100, exact_matching: 0}` —
not the claimed `{top1: 100, top5: 100, top10: 100, mean_ranks: 33.3,
exact_matching: 100}`: the diagonal zeros are sorted *last* by the
descending column sort, so every diagonal rank is `N`, and
`exact_matching` compares ranks against `0`. -/
theorem identity_comparison_result :
    call ⟨"euclidean", "mean"⟩ (TTensor.mk2 mat3R) (TTensor.mk2 mat3R)
      [1, 5, 10] =
      Except.ok [("top1", 0), ("top5", 0), ("top10", 0),
        ("mean_ranks", 100), ("exact_matching", 0)] := by
  have hmat : applyMethod "euclidean" ((TTensor.mk2 mat3R).to2D "mean")
      ((TTensor.mk2 mat3R).to2D "mean") = dmat3 := by
    rw [show (TTensor.mk2 mat3R).to2D "mean" = mat3R from rfl,
        applyMethod_euclidean]
    simp only [euclidean, mat3R, dmat3, List.map_cons, List.map_nil,
      List.zipWith_cons_cons, List.zipWith_nil_right, List.sum_cons,
      List.sum_nil, List.cons.injEq, and_true, l2norm]
    norm_num [Real.sqrt_eq_zero']
  have hranks : compute_diag_ranks dmat3 = [3, 3, 3] := by
    have ha : (0 : ℝ) < Real.sqrt 0.26 := Real.sqrt_pos.mpr (by norm_num)
    have hb : (0 : ℝ) < Real.sqrt 0.62 := Real.sqrt_pos.mpr (by norm_num)
    have hc : (0 : ℝ) < Real.sqrt 0.24 := Real.sqrt_pos.mpr (by norm_num)
    have hab : Real.sqrt 0.26 < Real.sqrt 0.62 :=
      Real.sqrt_lt_sqrt (by norm_num) (by norm_num)
    have hca : Real.sqrt 0.24 ≤ Real.sqrt 0.26 :=
      Real.sqrt_le_sqrt (by norm_num)
    have hcb : Real.sqrt 0.24 ≤ Real.sqrt 0.62 :=
      Real.sqrt_le_sqrt (by norm_num)
    simp [compute_diag_ranks, dmat3, colPairs, sortDesc, List.enum,
      List.enumFrom, show List.range 3 = [0, 1, 2] from rfl,
      List.findIdx, List.findIdx.go,
      not_le.mpr hab, not_le.mpr hb, not_le.mpr ha, not_le.mpr hc,
      hca, hc.le, hcb]
  have hlen : dmat3.length = 3 := by simp [dmat3]
  have hs1 : top_k_score 3 [3, 3, 3] 1 = 0 := by
    rw [top_k_score_eq_count 3 [3, 3, 3] 1 0 (by norm_num) (by norm_num)]
    norm_num
  have hs5 : top_k_score 3 [3, 3, 3] 5 = 0 := by
    rw [top_k_score_eq_count 3 [3, 3, 3] 5 0 (by norm_num) (by norm_num)]
    norm_num
  have hs10 : top_k_score 3 [3, 3, 3] 10 = 0 := by
    rw [top_k_score_eq_count 3 [3, 3, 3] 10 0 (by norm_num) (by norm_num)]
    norm_num
  have hm : mean_ranks_score 3 [3, 3, 3] = 100 := by
    norm_num [mean_ranks_score]
  have he : exact_matching_score 3 [3, 3, 3] = 0 := by
    norm_num [exact_matching_score]
  rw [call_valid_eq "euclidean" "mean" _ _ _
      (by decide) (by decide) (by decide) (by decide)]
  rw [hmat, hranks, hlen]
  simp only [List.map_cons, List.map_nil, List.nil_append, List.cons_append,
    hs1, hs5, hs10, hm, he]
  rfl

/-- `headD` of a nonempty replicated list. -/
theorem headD_replicate {β : Type} (n : ℕ) (hn : 0 < n) (v d : β) :
    (List.replicate n v).headD d = v := by
  cases n with
  | zero => omega
  | succ k => rw [List.replicate_succ]; rfl

/-- A column of a group whose samples are all the same row. -/
theorem colJ_replicate (S : ℕ) (v : List ℝ) (j : ℕ) :
    colJ (List.replicate S v) j = List.replicate S (v.getD j 0) := by
  unfold colJ
  rw [List.map_replicate]

/-- A constant list is sorted. -/
theorem sorted_le_replicate (n : ℕ) (x : ℝ) :
    List.Sorted (fun a b : ℝ => a ≤ b) (List.replicate n x) := by
  induction n with
  | zero => simp
  | succ k ih =>
    rw [List.replicate_succ]
    refine List.pairwise_cons.mpr ⟨?_, ih⟩
    intro y hy
    rw [List.eq_of_mem_replicate hy]

/-- The lower median of a constant list is its value. -/
theorem lowerMedian_replicate (n : ℕ) (hn : 0 < n) (x : ℝ) :
    lowerMedian (List.replicate n x) = x := by
  unfold lowerMedian
  rw [(sorted_le_replicate n x).insertionSort_eq, List.length_replicate]
  have h : (n - 1) / 2 < n := by omega
  rw [List.getD_eq_getElem?_getD, List.getElem?_eq_getElem (by simpa using h)]
  simp

/-- Reassembling a row from its per-index reads. -/
theorem map_range_getD (v : List ℝ) :
    (List.range v.length).map (fun j => v.getD j 0) = v := by
  apply List.ext_getElem
  · simp
  · intro j h1 h2
    simp [List.getD_eq_getElem?_getD, List.getElem?_eq_getElem h2]

/-- `meanRow` of a group of identical samples returns the common row. -/
theorem meanRow_replicate (S : ℕ) (hS : 0 < S) (v : List ℝ) :
    meanRow (List.replicate S v) = v := by
  unfold meanRow featLen
  rw [headD_replicate S hS]
  have key : ∀ j : ℕ, (colJ (List.replicate S v) j).sum /
      ((List.replicate S v).length : ℝ) = v.getD j 0 := by
    intro j
    rw [colJ_replicate, List.sum_replicate, nsmul_eq_mul, List.length_replicate]
    have hS' : (S : ℝ) ≠ 0 := Nat.cast_ne_zero.mpr hS.ne'
    rw [mul_div_cancel_left₀ _ hS']
  simp only [key]
  exact map_range_getD v

/-- `medianRow` of a group of identical samples returns the common row. -/
theorem medianRow_replicate (S : ℕ) (hS : 0 < S) (v : List ℝ) :
    medianRow (List.replicate S v) = v := by
  unfold medianRow featLen
  rw [headD_replicate S hS]
  have key : ∀ j : ℕ, lowerMedian (colJ (List.replicate S v) j) = v.getD j 0 := by
    intro j
    rw [colJ_replicate]
    exact lowerMedian_replicate S hS _
  simp only [key]
  exact map_range_getD v

/-- `robustMeanRow` of a group of identical positive samples returns the
common row shifted by the epsilon `1e-8`. -/
theorem robustMeanRow_replicate (S : ℕ) (hS : 0 < S) (v : List ℝ)
    (hv : ∀ x ∈ v, 0 < x) :
    robustMeanRow (List.replicate S v) = v.map (fun x => x + 1e-8) := by
  unfold robustMeanRow featLen
  rw [headD_replicate S hS]
  apply List.ext_getElem
  · simp
  · intro j h1 h2
    have hj : j < v.length := by simpa using h1
    simp only [List.getElem_map, List.getElem_range]
    rw [colJ_replicate, List.map_replicate, List.sum_replicate, nsmul_eq_mul,
        List.length_replicate]
    have hS' : (S : ℝ) ≠ 0 := Nat.cast_ne_zero.mpr hS.ne'
    rw [mul_div_cancel_left₀ _ hS']
    have hgd : v.getD j 0 = v[j] := by
      rw [List.getD_eq_getElem?_getD, List.getElem?_eq_getElem hj]
      rfl
    have hpos : (0 : ℝ) < v.getD j 0 + 1e-8 := by
      rw [hgd]
      have hx := hv v[j] (List.getElem_mem hj)
      positivity
    rw [Real.exp_log hpos, hgd]

/-- C8 (amended): on a rank-3 input in which each item consists of `S`
identical (positive) sample rows, `mean` and `median` both return exactly
the common row of each item, while `robust_mean` returns that row with
every entry shifted by the epsilon `1e-8` — so `mean` and `median` agree
exactly, and `robust_mean` agrees with them only up to `1e-8`. -/
theorem agg_identical_samples (emb : List (List (List ℝ))) (S : ℕ)
    (hS : 0 < S)
    (hconst : ∀ it ∈ emb, ∃ v : List ℝ,
      it = List.replicate S v ∧ ∀ x ∈ v, 0 < x) :
    mean emb = emb.map (fun it => it.headD []) ∧
    median emb = emb.map (fun it => it.headD []) ∧
    robust_mean emb = emb.map (fun it => (it.headD []).map fun x => x + 1e-8) := by
  refine ⟨?_, ?_, ?_⟩
  · unfold mean
    apply List.map_congr_left
    intro it hit
    obtain ⟨v, rfl, hv⟩ := hconst it hit
    rw [meanRow_replicate S hS, headD_replicate S hS]
  · unfold median
    apply List.map_congr_left
    intro it hit
    obtain ⟨v, rfl, hv⟩ := hconst it hit
    rw [medianRow_replicate S hS, headD_replicate S hS]
  · unfold robust_mean
    apply List.map_congr_left
    intro it hit
    obtain ⟨v, rfl, hv⟩ := hconst it hit
    rw [robustMeanRow_replicate S hS v hv, headD_replicate S hS]

/-- The spec §8 aggregation scenario input: shape `(2, 4, 3)`, all four
samples of each item identical. -/
noncomputable def ones243 : List (List (List ℝ)) :=
  [List.replicate 4 [1, 1, 1], List.replicate 4 [1, 1, 1]]

/-- C8 (counterexample): on the `(2, 4, 3)` all-ones input, `mean` and
`median` both return `[[1,1,1],[1,1,1]]`, but `robust_mean` returns
`1 + 1e-8` in every entry (the epsilon added before the logarithm survives
the exponential exactly), so the three aggregations do *not* all produce
the same output. -/
theorem robust_mean_shifts_by_epsilon :
    mean ones243 = [[1, 1, 1], [1, 1, 1]] ∧
    median ones243 = [[1, 1, 1], [1, 1, 1]] ∧
    robust_mean ones243 =
      [[1 + 1e-8, 1 + 1e-8, 1 + 1e-8], [1 + 1e-8, 1 + 1e-8, 1 + 1e-8]] ∧
    robust_mean ones243 ≠ mean ones243 := by
  have h1 : mean ones243 = [[1, 1, 1], [1, 1, 1]] := by
    unfold mean ones243
    simp only [List.map_cons, List.map_nil]
    rw [meanRow_replicate 4 (by norm_num) [1, 1, 1]]
  have h2 : median ones243 = [[1, 1, 1], [1, 1, 1]] := by
    unfold median ones243
    simp only [List.map_cons, List.map_nil]
    rw [medianRow_replicate 4 (by norm_num) [1, 1, 1]]
  have h3 : robust_mean ones243 =
      [[1 + 1e-8, 1 + 1e-8, 1 + 1e-8], [1 + 1e-8, 1 + 1e-8, 1 + 1e-8]] := by
    unfold robust_mean ones243
    simp only [List.map_cons, List.map_nil]
    rw [robustMeanRow_replicate 4 (by norm_num) [1, 1, 1] (by norm_num)]
    norm_num
  refine ⟨h1, h2, h3, ?_⟩
  rw [h1, h3]
  intro hcontra
  simp only [List.cons.injEq] at hcontra
  norm_num at hcontra

/-- Witness for C8's amended theorem at the spec scenario input. -/
theorem agg_identical_samples_witness :
    ((0 < 4 ∧ ∀ it ∈ ones243, ∃ v : List ℝ,
        it = List.replicate 4 v ∧ ∀ x ∈ v, 0 < x) ∧
      (mean ones243 = ones243.map (fun it => it.headD []) ∧
       median ones243 = ones243.map (fun it => it.headD []) ∧
       robust_mean ones243 =
         ones243.map (fun it => (it.headD []).map fun x => x + 1e-8))) := by
  have hh : ∀ it ∈ ones243, ∃ v : List ℝ,
      it = List.replicate 4 v ∧ ∀ x ∈ v, 0 < x := by
    intro it hit
    have hit2 : it = List.replicate 4 [(1 : ℝ), 1, 1] := by
      simp [ones243] at hit
      exact hit
    exact ⟨[1, 1, 1], hit2, by norm_num⟩
  exact ⟨⟨by norm_num, hh⟩, agg_identical_samples ones243 4 (by norm_num) hh⟩

/-- The feature count of a group is unchanged by permuting its samples,
provided every sample row has the group's common feature length. -/
theorem featLen_eq_of_perm (a b : List (List ℝ)) (hab : a.Perm b)
    (ha : ∀ row ∈ a, row.length = featLen a) : featLen b = featLen a := by
  cases hb : b with
  | nil =>
    have : a = [] := (hb ▸ hab).eq_nil
    rw [this]
  | cons r t =>
    have hr : r ∈ a := hab.mem_iff.mpr (hb ▸ List.mem_cons_self r t)
    have : featLen (r :: t) = r.length := rfl
    rw [this, ha r hr]

/-- `meanRow` is invariant under permuting the samples of a group. -/
theorem meanRow_eq_of_perm (a b : List (List ℝ)) (hab : a.Perm b)
    (ha : ∀ row ∈ a, row.length = featLen a) : meanRow a = meanRow b := by
  unfold meanRow colJ
  rw [featLen_eq_of_perm a b hab ha, hab.length_eq]
  apply List.map_congr_left
  intro j _
  rw [(hab.map (fun row => row.getD j 0)).sum_eq]

/-- Antisymmetry of the sort relation used by `lowerMedian`. -/
instance instIsAntisymmRealLe : IsAntisymm ℝ fun a b : ℝ => a ≤ b :=
  ⟨fun _ _ h1 h2 => le_antisymm h1 h2⟩

/-- Totality of the sort relation used by `lowerMedian`. -/
instance instIsTotalRealLe : IsTotal ℝ fun a b : ℝ => a ≤ b :=
  ⟨fun a b => le_total a b⟩

/-- Transitivity of the sort relation used by `lowerMedian`. -/
instance instIsTransRealLe : IsTrans ℝ fun a b : ℝ => a ≤ b :=
  ⟨fun _ _ _ => le_trans⟩

/-- `lowerMedian` only depends on the multiset of values. -/
theorem lowerMedian_eq_of_perm (l1 l2 : List ℝ) (h : l1.Perm l2) :
    lowerMedian l1 = lowerMedian l2 := by
  unfold lowerMedian
  have hs : l1.insertionSort (fun a b : ℝ => a ≤ b) =
      l2.insertionSort (fun a b : ℝ => a ≤ b) := by
    refine @List.eq_of_perm_of_sorted ℝ (fun a b : ℝ => a ≤ b)
      instIsAntisymmRealLe _ _ ?_ ?_ ?_
    · exact (List.perm_insertionSort _ l1).trans
        (h.trans (List.perm_insertionSort _ l2).symm)
    · exact List.sorted_insertionSort _ l1
    · exact List.sorted_insertionSort _ l2
  rw [hs, h.length_eq]

/-- `medianRow` is invariant under permuting the samples of a group. -/
theorem medianRow_eq_of_perm (a b : List (List ℝ)) (hab : a.Perm b)
    (ha : ∀ row ∈ a, row.length = featLen a) : medianRow a = medianRow b := by
  unfold medianRow colJ
  rw [featLen_eq_of_perm a b hab ha]
  apply List.map_congr_left
  intro j _
  exact lowerMedian_eq_of_perm _ _ (hab.map (fun row => row.getD j 0))

/-- C9: the `mean` and `median` aggregations are invariant under permuting
the samples within each item group (`emb2` is `emb1` with each item's
sample list permuted; each sample row is assumed to have its group's
common feature length, as tensor inputs do). -/
theorem agg_perm_invariant (emb1 emb2 : List (List (List ℝ)))
    (hperm : List.Forall₂ (fun it1 it2 => it1.Perm it2) emb1 emb2)
    (hlen : ∀ it ∈ emb1, ∀ row ∈ it, row.length = featLen it) :
    mean emb1 = mean emb2 ∧ median emb1 = median emb2 := by
  induction hperm with
  | nil => exact ⟨rfl, rfl⟩
  | @cons a b l1 l2 hab hrest ih =>
    have hha : ∀ row ∈ a, row.length = featLen a :=
      hlen a (List.mem_cons_self a l1)
    have hlt : ∀ it ∈ l1, ∀ row ∈ it, row.length = featLen it :=
      fun it hit => hlen it (List.mem_cons_of_mem a hit)
    obtain ⟨ihm, ihd⟩ := ih hlt
    constructor
    · simp only [mean, List.map_cons]
      rw [meanRow_eq_of_perm a b hab hha]
      simp only [mean] at ihm
      rw [ihm]
    · simp only [median, List.map_cons]
      rw [medianRow_eq_of_perm a b hab hha]
      simp only [median] at ihd
      rw [ihd]

/-- A one-item example: two samples, swapped. -/
noncomputable def swapEx1 : List (List (List ℝ)) := [[[1, 2], [3, 4]]]

/-- The same item with its two samples in the other order. -/
noncomputable def swapEx2 : List (List (List ℝ)) := [[[3, 4], [1, 2]]]

/-- Witness for C9 at a concrete input. -/
theorem agg_perm_invariant_witness :
    (List.Forall₂ (fun it1 it2 => it1.Perm it2) swapEx1 swapEx2 ∧
      ∀ it ∈ swapEx1, ∀ row ∈ it, row.length = featLen it) ∧
    (mean swapEx1 = mean swapEx2 ∧ median swapEx1 = median swapEx2) := by
  have hp : List.Forall₂ (fun it1 it2 => it1.Perm it2) swapEx1 swapEx2 := by
    unfold swapEx1 swapEx2
    exact List.Forall₂.cons (List.Perm.swap [3, 4] [1, 2] []) List.Forall₂.nil
  have hl : ∀ it ∈ swapEx1, ∀ row ∈ it, row.length = featLen it := by
    intro it hit
    have hit2 : it = [[(1 : ℝ), 2], [3, 4]] := by
      simpa [swapEx1] using hit
    subst hit2
    intro row hrow
    have hrow2 : row = [(1 : ℝ), 2] ∨ row = [3, 4] := by simpa using hrow
    rcases hrow2 with h | h <;> subst h <;> rfl
  exact ⟨⟨hp, hl⟩, agg_perm_invariant swapEx1 swapEx2 hp hl⟩

end Bioval
